import Mathlib

/-!
Verification of the browser-agent task-execution engine.

This file gives a shallow embedding of the engine's security layer
(`src/agent/security.ts`), its confirmation gate and execution loop
(`BrowserAgent`), its plan tracker (`update_plan` handling) and the tab
registry (`BrowserManager`), together with theorems about the documented
behaviour.  JavaScript strings are modelled by Lean `String`; the JS
`String.prototype.toLowerCase`/`includes` operations are modelled by
executable functions below, restricted to the character ranges that occur
in the keyword dictionaries (ASCII, Latin-1 letters, Cyrillic).
-/

/-! ## JS string primitives -/

/-- JS `toLowerCase` on one character, covering ASCII `A`-`Z`, the Latin-1
uppercase letters `À`-`Þ` (except `×`), and Cyrillic `А`-`Я` and `Ё`, which
are the only cased characters relevant to the keyword dictionaries. -/
def jsCharToLower (c : Char) : Char :=
  if 0x41 ≤ c.toNat ∧ c.toNat ≤ 0x5A then Char.ofNat (c.toNat + 32)
  else if 0xC0 ≤ c.toNat ∧ c.toNat ≤ 0xDE ∧ c.toNat ≠ 0xD7 then Char.ofNat (c.toNat + 32)
  else if 0x410 ≤ c.toNat ∧ c.toNat ≤ 0x42F then Char.ofNat (c.toNat + 32)
  else if c.toNat = 0x401 then Char.ofNat 0x451
  else c

/-- JS `toLowerCase` on a string (restricted as in `jsCharToLower`). -/
def jsToLower (s : String) : String :=
  ⟨s.data.map jsCharToLower⟩

/-- Does `needle` occur at the very start of `hay`? (char-list level). -/
def charsStartWith : List Char → List Char → Bool
  | _, [] => true
  | [], _ :: _ => false
  | h :: hs, n :: ns => h == n && charsStartWith hs ns

/-- Does `needle` occur somewhere inside `hay`? (char-list level). -/
def charsHaveSub (needle : List Char) : List Char → Bool
  | [] => needle.isEmpty
  | h :: t => charsStartWith (h :: t) needle || charsHaveSub needle t

/-- JS `hay.includes(needle)`. -/
def jsIncludes (hay needle : String) : Bool :=
  charsHaveSub needle.data hay.data

/-- Escape of one character inside a JSON string literal (quote and
backslash; control characters do not occur in the modelled inputs). -/
def jsonEscapeChar (c : Char) : String :=
  if c = '"' then "\\\""
  else if c = '\\' then "\\\\"
  else String.singleton c

/-- Escape of a JSON string body. -/
def jsonEscape (s : String) : String :=
  String.join (s.data.map jsonEscapeChar)

/-- JS `JSON.stringify` of a flat string-to-string record, in insertion
order: `{"k":"v",...}`. -/
def jsonStringify (attrs : List (String × String)) : String :=
  "\x7b" ++
    String.intercalate ","
      (attrs.map (fun p => "\"" ++ jsonEscape p.1 ++ "\":\"" ++ jsonEscape p.2 ++ "\"")) ++
  "\x7d"

/-- Lookup in a string-keyed record (first binding wins, as in a JS
object literal read). -/
def attrLookup (attrs : List (String × String)) (k : String) : Option String :=
  (attrs.find? (fun p => p.1 == k)).map (·.2)

/-! ## Security data model (`types/common.types.ts`, `types/security.types.ts`) -/

inductive RiskLevel
  | low
  | medium
  | high
  | critical
deriving DecidableEq, Repr

inductive SecurityCategory
  | financial
  | data_loss
  | privacy
  | account
  | content_modification
deriving DecidableEq, Repr

/-- The string name of a category, as it appears in template literals. -/
def categoryToString : SecurityCategory → String
  | .financial => "financial"
  | .data_loss => "data_loss"
  | .privacy => "privacy"
  | .account => "account"
  | .content_modification => "content_modification"

structure SecurityAssessment where
  isDestructive : Bool
  riskLevel : RiskLevel
  reason : String
  category : Option SecurityCategory := none
deriving DecidableEq, Repr

/-- `DestructiveActionContext`: element attributes are kept as an ordered
association list (JS object insertion order). -/
structure DestructiveActionContext where
  action : String
  elementText : Option String := none
  elementAttributes : Option (List (String × String)) := none
  pageUrl : Option String := none
  semanticContext : Option String := none
deriving DecidableEq, Repr

/-! ## Security constants (`constants/security.ts`) -/

def financialLanguages : List (String × List String) :=
  [("en", ["buy", "purchase", "pay", "checkout", "order", "payment", "billing", "card",
           "subscribe", "donate"]),
   ("ru", ["купить", "оплатить", "платить", "оформить", "заказ", "платеж", "подписка", "донат"]),
   ("es", ["comprar", "pagar", "pedido", "pago"]),
   ("de", ["kaufen", "bezahlen", "bestellen", "zahlung"]),
   ("fr", ["acheter", "payer", "commande", "paiement"])]

def dataLossLanguages : List (String × List String) :=
  [("en", ["delete", "remove", "clear", "erase", "cancel", "unsubscribe", "deactivate",
           "close account"]),
   ("ru", ["удалить", "очистить", "стереть", "отменить", "отписаться", "деактивировать",
           "закрыть"]),
   ("es", ["eliminar", "borrar", "cancelar"]),
   ("de", ["löschen", "entfernen", "abbrechen"]),
   ("fr", ["supprimer", "effacer", "annuler"])]

def contentModificationLanguages : List (String × List String) :=
  [("en", ["send", "post", "publish", "submit", "upload", "share", "create", "edit"]),
   ("ru", ["отправить", "опубликовать", "разместить", "загрузить", "поделиться", "создать",
           "редактировать"]),
   ("es", ["enviar", "publicar", "compartir"]),
   ("de", ["senden", "veröffentlichen", "teilen"]),
   ("fr", ["envoyer", "publier", "partager"])]

def accountLanguages : List (String × List String) :=
  [("en", ["logout", "log out", "sign out", "change password", "reset", "verify"]),
   ("ru", ["выйти", "выход", "сменить пароль", "сбросить"]),
   ("es", ["cerrar sesión", "salir"]),
   ("de", ["abmelden", "ausloggen"]),
   ("fr", ["déconnexion", "se déconnecter"])]

/-- `DESTRUCTIVE_KEYWORDS`, in `Object.entries` (declaration) order. -/
def DESTRUCTIVE_KEYWORDS : List (SecurityCategory × List (String × List String)) :=
  [(.financial, financialLanguages),
   (.data_loss, dataLossLanguages),
   (.content_modification, contentModificationLanguages),
   (.account, accountLanguages)]

/-- `SENSITIVE_URL_PATTERNS`: each source regex `/word/i` is a plain
case-insensitive substring test, kept here as the raw pattern word. -/
def SENSITIVE_URL_PATTERNS : List String :=
  ["checkout", "payment", "cart", "order", "billing", "delete", "remove", "settings",
   "account", "profile"]

def SENSITIVE_FORM_INDICATORS : List String :=
  ["payment", "credit-card", "cvv", "card-number", "billing", "password"]

def RISK_LEVEL_ORDER : RiskLevel → Nat
  | .critical => 4
  | .high => 3
  | .medium => 2
  | .low => 1

/-! ## SecurityLayer (`agent/security.ts`) -/

def getRiskLevelForCategory : SecurityCategory → RiskLevel
  | .financial => .critical
  | .data_loss => .high
  | .account => .high
  | .privacy => .medium
  | .content_modification => .medium

/-- Inner scan of `checkTextForDestructiveKeywords`: first language whose
keyword list has a substring match, together with the first such keyword. -/
def findLangKeyword (lowerText : String) : List (String × List String) → Option (String × String)
  | [] => none
  | (lang, kws) :: rest =>
    match kws.find? (fun kw => jsIncludes lowerText kw) with
    | some kw => some (lang, kw)
    | none => findLangKeyword lowerText rest

/-- Outer scan of `checkTextForDestructiveKeywords` over the category
dictionary. -/
def checkTextAux (lowerText : String) :
    List (SecurityCategory × List (String × List String)) → Option SecurityAssessment
  | [] => none
  | (category, languages) :: rest =>
    match findLangKeyword lowerText languages with
    | some (lang, keyword) =>
      some { isDestructive := true,
             riskLevel := getRiskLevelForCategory category,
             reason := "Detected " ++ categoryToString category ++ " keyword: \"" ++ keyword ++
                       "\" (" ++ lang ++ ")",
             category := some category }
    | none => checkTextAux lowerText rest

def checkTextForDestructiveKeywords (text : String) : Option SecurityAssessment :=
  checkTextAux (jsToLower text) DESTRUCTIVE_KEYWORDS

/-- Indicator list of the submit/button branch of
`checkAttributesForDestructiveIndicators`. -/
def buttonIndicators : List String :=
  ["delete", "remove", "buy", "purchase", "pay", "submit-payment", "checkout", "confirm-order"]

def checkAttributesForDestructiveIndicators
    (attributes : List (String × String)) : Option SecurityAssessment :=
  let attrString := jsToLower (jsonStringify attributes)
  let submitBranch :=
    if attrLookup attributes "type" == some "submit" ||
       attrLookup attributes "role" == some "button" then
      match buttonIndicators.find? (fun ind => jsIncludes attrString ind) with
      | some indicator =>
        some { isDestructive := true,
               riskLevel := RiskLevel.high,
               reason := "Button/submit with destructive attribute pattern: " ++ indicator,
               category := some SecurityCategory.content_modification }
      | none => none
    else none
  match submitBranch with
  | some a => some a
  | none =>
    match SENSITIVE_FORM_INDICATORS.find? (fun ind => jsIncludes attrString ind) with
    | some indicator =>
      some { isDestructive := true,
             riskLevel := RiskLevel.critical,
             reason := "Sensitive form field detected: " ++ indicator,
             category := some SecurityCategory.financial }
    | none => none

def checkUrlForSensitivePatterns (url : String) : Option SecurityAssessment :=
  match SENSITIVE_URL_PATTERNS.find? (fun pat => jsIncludes (jsToLower url) pat) with
  | some pat =>
    some { isDestructive := true,
           riskLevel := RiskLevel.medium,
           reason := "Operating in sensitive area: " ++ pat,
           category := some SecurityCategory.privacy }
  | none => none

/-- The `sensitiveContexts` table of `checkSemanticContext`. -/
def sensitiveContexts : List (String × SecurityCategory × RiskLevel) :=
  [("checkout", .financial, .high),
   ("payment", .financial, .critical),
   ("cart", .financial, .low),
   ("billing", .financial, .high),
   ("delete", .data_loss, .high),
   ("settings", .account, .medium)]

def checkSemanticContext (context : String) : Option SecurityAssessment :=
  let lowerContext := jsToLower context
  match sensitiveContexts.find? (fun t => jsIncludes lowerContext t.1) with
  | some (pat, category, risk) =>
    some { isDestructive := true,
           riskLevel := risk,
           reason := "Action in sensitive context: " ++ pat,
           category := some category }
  | none => none

def assessTypeAction (context : DestructiveActionContext) : Option SecurityAssessment :=
  let attrs := context.elementAttributes.getD []
  let attrString := jsToLower (jsonStringify attrs)
  if attrLookup attrs "type" == some "password" then
    some { isDestructive := true,
           riskLevel := RiskLevel.high,
           reason := "Typing into password field",
           category := some SecurityCategory.account }
  else if jsIncludes attrString "card" || jsIncludes attrString "cvv" ||
          jsIncludes attrString "credit" then
    some { isDestructive := true,
           riskLevel := RiskLevel.critical,
           reason := "Typing into payment information field",
           category := some SecurityCategory.financial }
  else none

/-- JS truthiness guard `if (context.field)` for an optional string field:
the branch is taken only for a present, non-empty string. -/
def optStrCandidates (o : Option String) (f : String → Option SecurityAssessment) :
    List SecurityAssessment :=
  match o with
  | some s => if s == "" then [] else (f s).toList
  | none => []

/-- The `assessments` array of `assessAction` in push order: element text,
element attributes, page URL, semantic context, type-specific check. -/
def firedAssessments (context : DestructiveActionContext) : List SecurityAssessment :=
  optStrCandidates context.elementText checkTextForDestructiveKeywords ++
  (match context.elementAttributes with
   | some attrs => (checkAttributesForDestructiveIndicators attrs).toList
   | none => []) ++
  optStrCandidates context.pageUrl checkUrlForSensitivePatterns ++
  optStrCandidates context.semanticContext checkSemanticContext ++
  (if context.action == "type_text" then (assessTypeAction context).toList else [])

/-- Stable insertion into a list sorted by `RISK_LEVEL_ORDER` descending:
the inserted element (originally earlier) goes before later elements of
equal risk, matching the stable JS `Array.prototype.sort`. -/
def insertByRiskDesc (a : SecurityAssessment) : List SecurityAssessment → List SecurityAssessment
  | [] => [a]
  | b :: bs =>
    if RISK_LEVEL_ORDER b.riskLevel ≤ RISK_LEVEL_ORDER a.riskLevel then a :: b :: bs
    else b :: insertByRiskDesc a bs

/-- `assessments.sort((a, b) => ORDER[b.riskLevel] - ORDER[a.riskLevel])`,
a stable descending sort. -/
def sortByRiskDesc (l : List SecurityAssessment) : List SecurityAssessment :=
  l.foldr insertByRiskDesc []

/-- `SecurityLayer.assessAction`. -/
def assessAction (context : DestructiveActionContext) : SecurityAssessment :=
  match sortByRiskDesc (firedAssessments context) with
  | [] =>
    { isDestructive := false,
      riskLevel := .low,
      reason := "No destructive patterns detected" }
  | top :: _ => { top with isDestructive := true }

/-- Modelled from the spec: the candidate "evaluated first" among those
sharing the maximum risk level — keep the current candidate unless a
strictly riskier one appears later. -/
def firstMaxAssessment (a : SecurityAssessment) : List SecurityAssessment → SecurityAssessment
  | [] => a
  | b :: bs =>
    if RISK_LEVEL_ORDER a.riskLevel < RISK_LEVEL_ORDER b.riskLevel then firstMaxAssessment b bs
    else firstMaxAssessment a bs

/-- Maximum of the risk-level keys of a candidate list. -/
def maxRiskKey (a : SecurityAssessment) (l : List SecurityAssessment) : Nat :=
  l.foldl (fun m b => max m (RISK_LEVEL_ORDER b.riskLevel)) (RISK_LEVEL_ORDER a.riskLevel)

/-! ## Browser manager (`browser/manager.ts`)

Playwright `Page` objects are modelled by a fresh numeric handle plus the
page's current URL; tab bookkeeping (a JS `Map`, insertion-ordered, with
in-place replacement on `set` of an existing key) is modelled by an
ordered association list. -/

structure PageModel where
  handle : Nat
  url : String
deriving DecidableEq, Repr

/-- JS `Map.prototype.set`: replace in place if the key exists, else
append at the end. -/
def mapSet : List (String × PageModel) → String → PageModel → List (String × PageModel)
  | [], k, v => [(k, v)]
  | (k', v') :: rest, k, v =>
    if k' == k then (k, v) :: rest else (k', v') :: mapSet rest k v

/-- JS `Map.prototype.get` / `has`. -/
def mapGet (m : List (String × PageModel)) (k : String) : Option PageModel :=
  (m.find? (fun p => p.1 == k)).map (·.2)

/-- JS `Map.prototype.delete`. -/
def mapDelete (m : List (String × PageModel)) (k : String) : List (String × PageModel) :=
  m.filter (fun p => !(p.1 == k))

structure BrowserState where
  contextInit : Bool := false
  pages : List (String × PageModel) := []
  currentPageId : Option String := none
  nextHandle : Nat := 0
deriving DecidableEq, Repr

/-- `BrowserManager.getCurrentPage` (throws `'No active page'`). -/
def getCurrentPage (b : BrowserState) : Except String PageModel :=
  match b.currentPageId with
  | none => .error "No active page"
  | some pid =>
    match mapGet b.pages pid with
    | none => .error "No active page"
    | some p => .ok p

/-- `BrowserManager.createNewTab`: a fresh page is registered under
`page-${this.pages.size}`; an optional URL is applied to the new page. -/
def createNewTab (b : BrowserState) (url : Option String) :
    Except String (BrowserState × String) :=
  if b.contextInit = false then .error "Browser context not initialized"
  else
    let page : PageModel := { handle := b.nextHandle, url := url.getD "about:blank" }
    let pageId := "page-" ++ toString b.pages.length
    .ok ({ b with pages := mapSet b.pages pageId page, nextHandle := b.nextHandle + 1 },
         pageId)

/-- `BrowserManager.closeTab`: remove the entry; if it was current, the
first remaining registry key (insertion order) becomes current. -/
def closeTab (b : BrowserState) (pageId : String) : Except String BrowserState :=
  match mapGet b.pages pageId with
  | none => .error ("Page " ++ pageId ++ " not found")
  | some _ =>
    let pages' := mapDelete b.pages pageId
    let current' :=
      if b.currentPageId == some pageId then pages'.head?.map (·.1)
      else b.currentPageId
    .ok { b with pages := pages', currentPageId := current' }

/-- `BrowserManager.switchTab`. -/
def switchTab (b : BrowserState) (pageId : String) : Except String BrowserState :=
  match mapGet b.pages pageId with
  | none => .error ("Page " ++ pageId ++ " not found")
  | some _ => .ok { b with currentPageId := some pageId }

/-! ## Agent data model (`agent/index.ts`) -/

inductive TaskStepStatus
  | pending
  | in_progress
  | completed
  | failed
  | skipped
deriving DecidableEq, Repr

structure TaskStep where
  id : String
  description : String
  status : TaskStepStatus
deriving DecidableEq, Repr

structure TaskPlan where
  goal : String
  steps : List TaskStep
  currentStepIndex : Int
  adaptations : List String
  completionCriteria : List String
deriving DecidableEq, Repr

inductive ChatRole
  | system
  | user
  | assistant
  | tool
deriving DecidableEq, Repr

/-- One conversation entry; assistant entries carry their tool-call
requests as `(id, name)` pairs, tool entries carry the correlation id. -/
structure ChatMessage where
  role : ChatRole
  content : String := ""
  toolCallId : Option String := none
  toolCalls : List (String × String) := []
deriving DecidableEq, Repr

def systemMsg (content : String) : ChatMessage := { role := .system, content := content }

def userMsg (content : String) : ChatMessage := { role := .user, content := content }

def toolMsg (id content : String) : ChatMessage :=
  { role := .tool, content := content, toolCallId := some id }

structure SimplifiedElement where
  id : String
  text : Option String := none
  attributes : List (String × String) := []
  semanticContext : Option String := none
deriving DecidableEq, Repr

/-- One step of an `update_plan` request. -/
structure StepArg where
  description : String
  status : Option TaskStepStatus := none
deriving DecidableEq, Repr

/-- Arguments of an `update_plan` request (`current_step_index`,
`completion_criteria`, `adaptations` in the source schema). -/
structure UpdatePlanArgs where
  steps : List StepArg
  currentStepIndex : Int
  completionCriteria : Option (List String) := none
  adaptations : Option (List String) := none
deriving DecidableEq, Repr

deriving instance DecidableEq for Except

/-- One tool-invocation request of a model decision, together with the
oracles for the external world: the actuator/extractor outcome for
browser-effecting operations (`envOutcome`, with any refreshed element
descriptors in `newElements`) and the human's reply if a confirmation
prompt occurs (`userAnswer`). -/
structure ToolCallSpec where
  id : String
  name : String
  elementId : Option String := none
  updatePlanArgs : Option UpdatePlanArgs := none
  completeSuccess : Bool := true
  completeSummary : String := ""
  envOutcome : Except String String := .ok ""
  newElements : Option (List SimplifiedElement) := none
  userAnswer : Bool := false
deriving DecidableEq, Repr

/-- What one iteration's LLM round-trip produced: a transport failure, or
a message with optional content and its tool calls. -/
inductive IterationInput
  | failure (msg : String)
  | message (content : Option String) (toolCalls : List ToolCallSpec)
deriving DecidableEq, Repr

/-- Resolved `AgentConfig` after the constructor's `??` defaulting. -/
structure ResolvedAgentConfig where
  requireConfirmation : Bool
  maxIterations : Nat
  enableThinking : Bool
  showThinkingProcess : Bool
  showPlanVisualization : Bool
  showActionHistory : Bool
deriving DecidableEq, Repr

/-- Optional `AgentConfig` as passed to the constructor. -/
structure AgentConfigOpt where
  requireConfirmation : Option Bool := none
  maxIterations : Option Nat := none
  enableThinking : Option Bool := none
  showThinkingProcess : Option Bool := none
  showPlanVisualization : Option Bool := none
  showActionHistory : Option Bool := none
deriving DecidableEq, Repr

/-- The `BrowserAgent` constructor's config defaulting (`?? true`,
`?? 50`, ...). -/
def resolveAgentConfig (c : AgentConfigOpt) : ResolvedAgentConfig :=
  { requireConfirmation := c.requireConfirmation.getD true,
    maxIterations := c.maxIterations.getD 50,
    enableThinking := c.enableThinking.getD true,
    showThinkingProcess := c.showThinkingProcess.getD true,
    showPlanVisualization := c.showPlanVisualization.getD true,
    showActionHistory := c.showActionHistory.getD true }

/-- The mutable `BrowserAgent` instance state.  `promptLog` is
instrumentation recording each confirmation prompt shown to the user as
`(action key, answer)`; the source's prompt is terminal I/O with no stored
counterpart. -/
structure AgentState where
  browser : BrowserState := {}
  conversationHistory : List ChatMessage := []
  currentElements : List SimplifiedElement := []
  isTaskComplete : Bool := false
  currentPlan : Option TaskPlan := none
  confirmedActions : List String := []
  promptLog : List (String × Bool) := []
deriving DecidableEq, Repr

def pushMsg (st : AgentState) (m : ChatMessage) : AgentState :=
  { st with conversationHistory := st.conversationHistory ++ [m] }

/-- The system prompt (abridged: its text takes no part in any claim; the
model only appends it once during `initialize`). -/
def SYSTEM_PROMPT : String :=
  "You are an intelligent web automation agent."

/-- `BrowserAgent.initialize` (browser launching is external I/O; the
conversation effect is the single system-prompt append). -/
def initializeModel (st : AgentState) : AgentState :=
  pushMsg st (systemMsg SYSTEM_PROMPT)

/-! ## Confirmation gate (`BrowserAgent.shouldConfirm` / `confirmAction`) -/

/-- `this.currentElements.find(el => el.id === args.element_id)`. -/
def resolveElement (st : AgentState) (tc : ToolCallSpec) : Option SimplifiedElement :=
  match tc.elementId with
  | none => none
  | some eid => st.currentElements.find? (fun el => el.id == eid)

/-- The action context both gate methods assemble from the tool name, the
resolved element and the current page. -/
def buildActionContext (tc : ToolCallSpec) (element : Option SimplifiedElement)
    (page : PageModel) : DestructiveActionContext :=
  { action := tc.name,
    elementText := element.bind (·.text),
    elementAttributes := element.map (·.attributes),
    pageUrl := some page.url,
    semanticContext := element.bind (·.semanticContext) }

/-- The template-literal rendering of an optional category
(`${assessment.category}` prints `undefined` when absent). -/
def categoryKeyString : Option SecurityCategory → String
  | some c => categoryToString c
  | none => "undefined"

/-- The confirmed-action key
`` `${toolName}:${element?.text || ''}:${assessment.category}` ``. -/
def actionKey (toolName : String) (element : Option SimplifiedElement)
    (assessment : SecurityAssessment) : String :=
  toolName ++ ":" ++ ((element.bind (·.text)).getD "") ++ ":" ++
    categoryKeyString assessment.category

/-- The assessment both gate methods compute for a call. -/
def gateAssessment (st : AgentState) (tc : ToolCallSpec) (page : PageModel) :
    SecurityAssessment :=
  assessAction (buildActionContext tc (resolveElement st tc) page)

/-- The confirmed-action key both gate methods compute for a call. -/
def gateKey (st : AgentState) (tc : ToolCallSpec) (page : PageModel) : String :=
  actionKey tc.name (resolveElement st tc) (gateAssessment st tc page)

/-- `BrowserAgent.shouldConfirm`; its leading `getCurrentPage` call can
throw `'No active page'`, hence the `Except`. -/
def shouldConfirmModel (st : AgentState) (tc : ToolCallSpec) : Except String Bool :=
  match getCurrentPage st.browser with
  | .error e => .error e
  | .ok page =>
    if (gateAssessment st tc page).riskLevel = .low then .ok false
    else if st.confirmedActions.contains (gateKey st tc page) then .ok false
    else
      .ok ((gateAssessment st tc page).isDestructive &&
        ((gateAssessment st tc page).riskLevel = .medium ||
         (gateAssessment st tc page).riskLevel = .high ||
         (gateAssessment st tc page).riskLevel = .critical))

/-- JS `Set.prototype.add`. -/
def setAdd (l : List String) (k : String) : List String :=
  if l.contains k then l else k :: l

/-- `BrowserAgent.confirmAction`: rebuild the context and assessment,
show the blocking prompt (recorded in `promptLog`), and on approval add
the action key to the confirmed set.  The returned `Bool` is the user's
answer. -/
def confirmActionModel (st : AgentState) (tc : ToolCallSpec) :
    Except String (AgentState × Bool) :=
  match getCurrentPage st.browser with
  | .error e => .error e
  | .ok page =>
    let key := gateKey st tc page
    let st1 := { st with promptLog := st.promptLog ++ [(key, tc.userAnswer)] }
    if tc.userAnswer then
      .ok ({ st1 with confirmedActions := setAdd st1.confirmedActions key }, true)
    else .ok (st1, false)

/-! ## Plan tracker (`executeTool`, `update_plan` case) -/

/-- `args.steps.map((step, index) => ({id: 'step-' + (index+1), ...}))`
with `status: step.status || 'pending'`. -/
def buildSteps (idx : Nat) : List StepArg → List TaskStep
  | [] => []
  | s :: rest =>
    { id := "step-" ++ toString (idx + 1),
      description := s.description,
      status := s.status.getD .pending } :: buildSteps (idx + 1) rest

/-- JS `x || 0` on an integral number. -/
def jsNumOr0 (x : Int) : Int := if x = 0 then 0 else x

/-- JS `s || d` for an optional string (empty string is falsy). -/
def jsStrOr (o : Option String) (d : String) : String :=
  match o with
  | some s => if s == "" then d else s
  | none => d

/-- The `update_plan` branch of `BrowserAgent.executeTool`: the new plan
and the returned summary string. -/
def applyUpdatePlan (currentPlan : Option TaskPlan) (args : UpdatePlanArgs) :
    TaskPlan × String :=
  let steps := buildSteps 0 args.steps
  let plan : TaskPlan :=
    { goal := jsStrOr (currentPlan.map (·.goal)) "Current task",
      steps := steps,
      currentStepIndex := jsNumOr0 args.currentStepIndex,
      adaptations :=
        match args.adaptations with
        | some a => a
        | none => (currentPlan.map (·.adaptations)).getD [],
      completionCriteria := args.completionCriteria.getD [] }
  (plan,
   "Plan updated: " ++ toString steps.length ++ " steps, currently on step " ++
     toString (args.currentStepIndex + 1))

/-! ## Tool dispatcher (`BrowserAgent.executeTool`)

Every branch first runs `getCurrentPage` (the source does so before the
`switch`).  `update_plan` and `complete_task` mutate agent state; all
other operations go to the external actuator/extractor, whose outcome is
the call's `envOutcome` oracle (with `newElements` standing for the
element descriptors the extractor operations cache).  The returned flag
is `toolSuccess`: `false` when the dispatch threw and the result is the
caught `Error: ...` text. -/
def executeToolModel (st : AgentState) (tc : ToolCallSpec) : AgentState × String × Bool :=
  match getCurrentPage st.browser with
  | .error e => (st, "Error: " ++ e, false)
  | .ok _ =>
    if tc.name = "update_plan" then
      match tc.updatePlanArgs with
      | none => (st, "Error: invalid update_plan arguments", false)
      | some args =>
        let (plan, summary) := applyUpdatePlan st.currentPlan args
        ({ st with currentPlan := some plan }, summary, true)
    else if tc.name = "complete_task" then
      ({ st with isTaskComplete := true }, tc.completeSummary, true)
    else
      match tc.envOutcome with
      | .ok r => ({ st with currentElements := tc.newElements.getD st.currentElements }, r, true)
      | .error e => (st, "Error: " ++ e, false)

/-! ## Execution loop (`BrowserAgent.executeTask`) -/

/-- The corrective entry the iteration-level `catch` appends:
`An error occurred: ${error.message}. Please try a different approach.` -/
def correctiveMsg (e : String) : ChatMessage :=
  userMsg ("An error occurred: " ++ e ++ ". Please try a different approach.")

/-- The error message thrown when a decision carries no tool calls. -/
def noToolCallsError : String := "Model did not return tool calls as required"

/-- The assistant conversation entry for a decision. -/
def assistantMsg (content : Option String) (tcs : List ToolCallSpec) : ChatMessage :=
  { role := .assistant,
    content := content.getD "",
    toolCalls := tcs.map (fun tc => (tc.id, tc.name)) }

/-- The per-decision tool-call loop.  Gate exceptions (`getCurrentPage`
inside `shouldConfirm`/`confirmAction`) escape to the iteration boundary:
they are returned as `some errorMessage` alongside the state mutated so
far, and the remaining calls are skipped.  Dispatch exceptions do not
escape (`executeToolModel` already catches them). -/
def processCalls (cfg : ResolvedAgentConfig) (st : AgentState) :
    List ToolCallSpec → AgentState × Option String
  | [] => (st, none)
  | tc :: rest =>
    let gateResult : Except String (AgentState × Bool) :=
      if cfg.requireConfirmation then
        match shouldConfirmModel st tc with
        | .error e => .error e
        | .ok true => confirmActionModel st tc
        | .ok false => .ok (st, true)
      else .ok (st, true)
    match gateResult with
    | .error e => (st, some e)
    | .ok (st1, proceed) =>
      if proceed then
        let r := executeToolModel st1 tc
        processCalls cfg (pushMsg r.1 (toolMsg tc.id r.2.1)) rest
      else
        processCalls cfg (pushMsg st1 (toolMsg tc.id "Action cancelled by user")) rest

/-- One iteration of the `while` loop body: push the assistant message,
run the tool calls (or raise the protocol violation when there are none),
and convert any escaped error into a corrective conversation entry. -/
def iterateModel (cfg : ResolvedAgentConfig) (st : AgentState) (inp : IterationInput) :
    AgentState :=
  match inp with
  | .failure e => pushMsg st (correctiveMsg e)
  | .message content tcs =>
    let st1 := pushMsg st (assistantMsg content tcs)
    match tcs with
    | [] => pushMsg st1 (correctiveMsg noToolCallsError)
    | _ :: _ =>
      match processCalls cfg st1 tcs with
      | (st2, none) => st2
      | (st2, some e) => pushMsg st2 (correctiveMsg e)

/-- `while (!this.isTaskComplete && iteration < maxIterations)`, with the
remaining iteration budget as structural fuel (`fuel = maxIterations - n`)
and `inputs n` the outcome of iteration `n`'s LLM round-trip.  Returns the
final state and the number of iterations performed. -/
def loopAux (cfg : ResolvedAgentConfig) (inputs : Nat → IterationInput) :
    Nat → AgentState → Nat → AgentState × Nat
  | 0, st, n => (st, n)
  | fuel + 1, st, n =>
    if st.isTaskComplete then (st, n)
    else loopAux cfg inputs fuel (iterateModel cfg st (inputs n)) (n + 1)

/-- `BrowserAgent.executeTask`: push the task as a user entry, reset the
plan (under `showPlanVisualization`), completion flag and confirmed-action
set, then run the loop.  `promptLog` is instrumentation and restarts empty
with each task so prompts can be counted per task. -/
def taskStartState (cfg : ResolvedAgentConfig) (task : String) (st : AgentState) :
    AgentState :=
  let st1 := pushMsg st (userMsg task)
  let st2 :=
    if cfg.showPlanVisualization then
      { st1 with currentPlan := some { goal := task, steps := [], currentStepIndex := 0,
                                       adaptations := [], completionCriteria := [] } }
    else st1
  { st2 with isTaskComplete := false, confirmedActions := [], promptLog := [] }

def executeTaskModel (cfg : ResolvedAgentConfig) (task : String)
    (inputs : Nat → IterationInput) (st : AgentState) : AgentState × Nat :=
  loopAux cfg inputs cfg.maxIterations (taskStartState cfg task st) 0

/-- The warning issued after the loop when the iteration cap was reached
without completion (`Task reached maximum iterations`). -/
def reportsUnresolved (st : AgentState) : Bool :=
  !st.isTaskComplete

/-- A session: `initialize` followed by a sequence of tasks, each with its
own per-iteration LLM outcomes. -/
def runSession (cfg : ResolvedAgentConfig) (st : AgentState)
    (tasks : List (String × (Nat → IterationInput))) : AgentState :=
  tasks.foldl (fun s t => (executeTaskModel cfg t.1 t.2 s).1) (initializeModel st)

/-! ## Risk-assessor lemmas -/

theorem RISK_LEVEL_ORDER_le_four (r : RiskLevel) : RISK_LEVEL_ORDER r ≤ 4 := by
  cases r <;> decide

theorem firstMaxAssessment_cons (bs : List SecurityAssessment) :
    ∀ a b : SecurityAssessment,
      firstMaxAssessment a (b :: bs) =
        if RISK_LEVEL_ORDER a.riskLevel <
            RISK_LEVEL_ORDER (firstMaxAssessment b bs).riskLevel then
          firstMaxAssessment b bs
        else a := by
  induction bs with
  | nil =>
    intro a b
    simp [firstMaxAssessment]
  | cons c cs ih =>
    intro a b
    rw [show firstMaxAssessment a (b :: c :: cs) =
          if RISK_LEVEL_ORDER a.riskLevel < RISK_LEVEL_ORDER b.riskLevel then
            firstMaxAssessment b (c :: cs)
          else firstMaxAssessment a (c :: cs) from rfl]
    rw [ih b c, ih a c]
    split_ifs <;> first | rfl | omega

theorem sortByRiskDesc_cons_head (l : List SecurityAssessment) :
    ∀ a : SecurityAssessment,
      ∃ rest, sortByRiskDesc (a :: l) = firstMaxAssessment a l :: rest := by
  induction l with
  | nil =>
    intro a
    exact ⟨[], rfl⟩
  | cons b bs ih =>
    intro a
    obtain ⟨rest', hrest⟩ := ih b
    have hsort : sortByRiskDesc (a :: b :: bs) =
        insertByRiskDesc a (sortByRiskDesc (b :: bs)) := rfl
    rw [hsort, hrest, firstMaxAssessment_cons]
    by_cases hlt :
        RISK_LEVEL_ORDER a.riskLevel <
          RISK_LEVEL_ORDER (firstMaxAssessment b bs).riskLevel
    · refine ⟨insertByRiskDesc a rest', ?_⟩
      simp [insertByRiskDesc, Nat.not_le.mpr hlt, hlt]
    · refine ⟨firstMaxAssessment b bs :: rest', ?_⟩
      simp [insertByRiskDesc, Nat.not_lt.mp hlt, hlt]

theorem firstMaxAssessment_riskKey (l : List SecurityAssessment) :
    ∀ a : SecurityAssessment,
      RISK_LEVEL_ORDER (firstMaxAssessment a l).riskLevel = maxRiskKey a l := by
  induction l with
  | nil =>
    intro a
    rfl
  | cons b bs ih =>
    intro a
    rw [show firstMaxAssessment a (b :: bs) =
          if RISK_LEVEL_ORDER a.riskLevel < RISK_LEVEL_ORDER b.riskLevel then
            firstMaxAssessment b bs
          else firstMaxAssessment a bs from rfl]
    by_cases hlt : RISK_LEVEL_ORDER a.riskLevel < RISK_LEVEL_ORDER b.riskLevel
    · rw [if_pos hlt, ih b]
      show maxRiskKey b bs = maxRiskKey a (b :: bs)
      unfold maxRiskKey
      rw [show (b :: bs).foldl
            (fun m c => max m (RISK_LEVEL_ORDER c.riskLevel))
            (RISK_LEVEL_ORDER a.riskLevel) =
          bs.foldl (fun m c => max m (RISK_LEVEL_ORDER c.riskLevel))
            (max (RISK_LEVEL_ORDER a.riskLevel) (RISK_LEVEL_ORDER b.riskLevel)) from rfl]
      congr 1
      omega
    · rw [if_neg hlt, ih a]
      show maxRiskKey a bs = maxRiskKey a (b :: bs)
      unfold maxRiskKey
      rw [show (b :: bs).foldl
            (fun m c => max m (RISK_LEVEL_ORDER c.riskLevel))
            (RISK_LEVEL_ORDER a.riskLevel) =
          bs.foldl (fun m c => max m (RISK_LEVEL_ORDER c.riskLevel))
            (max (RISK_LEVEL_ORDER a.riskLevel) (RISK_LEVEL_ORDER b.riskLevel)) from rfl]
      congr 1
      omega

theorem firstMaxAssessment_of_maximal (l : List SecurityAssessment) :
    ∀ a : SecurityAssessment,
      (∀ b ∈ l, RISK_LEVEL_ORDER b.riskLevel ≤ RISK_LEVEL_ORDER a.riskLevel) →
      firstMaxAssessment a l = a := by
  induction l with
  | nil =>
    intro a _
    rfl
  | cons b bs ih =>
    intro a h
    rw [show firstMaxAssessment a (b :: bs) =
          if RISK_LEVEL_ORDER a.riskLevel < RISK_LEVEL_ORDER b.riskLevel then
            firstMaxAssessment b bs
          else firstMaxAssessment a bs from rfl]
    rw [if_neg (Nat.not_lt.mpr (h b (List.mem_cons_self b bs)))]
    exact ih a (fun c hc => h c (List.mem_cons_of_mem b hc))

theorem assessAction_of_fired (context : DestructiveActionContext)
    (a : SecurityAssessment) (l : List SecurityAssessment)
    (h : firedAssessments context = a :: l) :
    assessAction context = { firstMaxAssessment a l with isDestructive := true } := by
  obtain ⟨rest, hrest⟩ := sortByRiskDesc_cons_head l a
  unfold assessAction
  rw [h, hrest]

theorem exists_find?_of_any {α : Type} (p : α → Bool) :
    ∀ l : List α, l.any p = true → ∃ x, l.find? p = some x := by
  intro l h
  induction l with
  | nil => simp at h
  | cons x xs ih =>
    by_cases hx : p x = true
    · exact ⟨x, List.find?_cons_of_pos xs hx⟩
    · rw [List.any_cons, Bool.or_eq_true] at h
      rcases h with h | h
    
      · exact absurd h hx
      · obtain ⟨y, hy⟩ := ih h
        refine ⟨y, ?_⟩
        rw [List.find?_cons_of_neg xs hx]
        exact hy

theorem findLangKeyword_of_any (langs : List (String × List String)) (lower : String)
    (h : langs.any (fun p => p.2.any (fun kw => jsIncludes lower kw)) = true) :
    ∃ lang kw, findLangKeyword lower langs = some (lang, kw) := by
  induction langs with
  | nil => simp at h
  | cons pr rest ih =>
    obtain ⟨lang, kws⟩ := pr
    by_cases hk : kws.any (fun kw => jsIncludes lower kw) = true
    · obtain ⟨kw, hkw⟩ := exists_find?_of_any _ kws hk
      exact ⟨lang, kw, by simp [findLangKeyword, hkw]⟩
    · rw [List.any_cons, Bool.or_eq_true] at h
      rcases h with h | h
      · exact absurd h hk
      · have hnone : kws.find? (fun kw => jsIncludes lower kw) = none := by
          rw [List.find?_eq_none]
          intro x hx hpx
          exact hk (List.any_eq_true.mpr ⟨x, hx, hpx⟩)
        obtain ⟨lang', kw', hrec⟩ := ih h
        exact ⟨lang', kw', by simp [findLangKeyword, hnone, hrec]⟩

/-- Does the text contain (after JS lowercasing) a keyword of the
`financial` category in any supported language? -/
def textHasFinancialKeyword (t : String) : Bool :=
  financialLanguages.any (fun p => p.2.any (fun kw => jsIncludes (jsToLower t) kw))

theorem checkText_financial (t : String) (h : textHasFinancialKeyword t = true) :
    ∃ A, checkTextForDestructiveKeywords t = some A ∧ A.riskLevel = .critical ∧
      A.category = some .financial ∧ A.isDestructive = true := by
  obtain ⟨lang, kw, hfind⟩ := findLangKeyword_of_any financialLanguages (jsToLower t) h
  refine ⟨{ isDestructive := true,
            riskLevel := getRiskLevelForCategory .financial,
            reason := "Detected " ++ categoryToString .financial ++ " keyword: \"" ++ kw ++
                      "\" (" ++ lang ++ ")",
            category := some .financial }, ?_, rfl, rfl, rfl⟩
  show checkTextAux (jsToLower t) DESTRUCTIVE_KEYWORDS = _
  rw [show DESTRUCTIVE_KEYWORDS =
        (SecurityCategory.financial, financialLanguages) ::
          [(SecurityCategory.data_loss, dataLossLanguages),
           (SecurityCategory.content_modification, contentModificationLanguages),
           (SecurityCategory.account, accountLanguages)] from rfl]
  simp [checkTextAux, hfind]

/-- C1: whenever at least one risk signal fires (the candidate list is
`a :: l`, collected in the fixed order text → attributes → URL → semantic
context → type-specific), `assessAction` returns an assessment with
`isDestructive = true` that is exactly the first-evaluated candidate of
maximum risk level, and its risk level is the maximum over all fired
candidates. -/
theorem assessAction_max_risk_first_evaluated (context : DestructiveActionContext)
    (a : SecurityAssessment) (l : List SecurityAssessment)
    (h : firedAssessments context = a :: l) :
    (assessAction context).isDestructive = true ∧
    assessAction context = { firstMaxAssessment a l with isDestructive := true } ∧
    RISK_LEVEL_ORDER (assessAction context).riskLevel = maxRiskKey a l := by
  have hass := assessAction_of_fired context a l h
  refine ⟨by rw [hass], hass, ?_⟩
  rw [hass]
  show RISK_LEVEL_ORDER (firstMaxAssessment a l).riskLevel = maxRiskKey a l
  exact firstMaxAssessment_riskKey l a

def wC1context : DestructiveActionContext :=
  { action := "click",
    elementText := some "Delete my account",
    pageUrl := some "https://example.com/settings" }

def wC1text : SecurityAssessment :=
  { isDestructive := true,
    riskLevel := .high,
    reason := "Detected data_loss keyword: \"delete\" (en)",
    category := some .data_loss }

def wC1url : SecurityAssessment :=
  { isDestructive := true,
    riskLevel := .medium,
    reason := "Operating in sensitive area: settings",
    category := some .privacy }

/-- Witness for the C1 theorem: a context firing both the text signal
(high) and the URL signal (medium). -/
theorem assessAction_max_risk_first_evaluated_witness :
    (assessAction wC1context).isDestructive = true ∧
    assessAction wC1context = { firstMaxAssessment wC1text [wC1url] with isDestructive := true } ∧
    RISK_LEVEL_ORDER (assessAction wC1context).riskLevel = maxRiskKey wC1text [wC1url] :=
  assessAction_max_risk_first_evaluated wC1context wC1text [wC1url] (by decide)

/-- C7: if the element text contains a financial-category keyword in any
supported language (case-insensitive substring), the overall assessment is
financial, destructive, and critical (the category default), regardless of
which other signals also fire. -/
theorem assessAction_financial_keyword_critical (context : DestructiveActionContext)
    (t : String) (ht : context.elementText = some t)
    (hk : textHasFinancialKeyword t = true) :
    (assessAction context).category = some .financial ∧
    (assessAction context).isDestructive = true ∧
    (assessAction context).riskLevel = .critical := by
  have hne : (t == "") = false := by
    cases hbe : t == ""
    · rfl
    · exfalso
      have ht0 : t = "" := eq_of_beq hbe
      subst ht0
      exact absurd hk (by decide)
  obtain ⟨A, hA, hAr, hAc, hAd⟩ := checkText_financial t hk
  have h1 : optStrCandidates context.elementText checkTextForDestructiveKeywords = [A] := by
    rw [ht]
    simp [optStrCandidates, hne, hA]
  obtain ⟨rest, hfired⟩ : ∃ rest, firedAssessments context = A :: rest := by
    refine ⟨?_, ?_⟩
    on_goal 2 => unfold firedAssessments
    on_goal 2 => rw [h1]
    on_goal 2 => exact rfl

  have hmax : ∀ b ∈ rest, RISK_LEVEL_ORDER b.riskLevel ≤ RISK_LEVEL_ORDER A.riskLevel := by
    intro b _
    rw [hAr]
    exact RISK_LEVEL_ORDER_le_four b.riskLevel
  have hfm : firstMaxAssessment A rest = A := firstMaxAssessment_of_maximal rest A hmax
  have hass := assessAction_of_fired context A rest hfired
  rw [hass, hfm]
  exact ⟨hAc, rfl, hAr⟩

/-- Witness for the C7 theorem: the spec's "Complete Purchase" scenario. -/
theorem assessAction_financial_keyword_critical_witness :
    (assessAction { action := "click", elementText := some "Complete Purchase",
                    elementAttributes := some [("type", "submit")],
                    pageUrl := some "https://shop.example/item" }).category =
        some SecurityCategory.financial ∧
    (assessAction { action := "click", elementText := some "Complete Purchase",
                    elementAttributes := some [("type", "submit")],
                    pageUrl := some "https://shop.example/item" }).isDestructive = true ∧
    (assessAction { action := "click", elementText := some "Complete Purchase",
                    elementAttributes := some [("type", "submit")],
                    pageUrl := some "https://shop.example/item" }).riskLevel =
        RiskLevel.critical :=
  assessAction_financial_keyword_critical _ "Complete Purchase" rfl (by decide)

/-! ## Execution-loop lemmas -/

/-- `t`'s conversation is `s`'s with entries appended at the end. -/
def ConvExtends (s t : AgentState) : Prop :=
  ∃ tail, t.conversationHistory = s.conversationHistory ++ tail

theorem convExtends_refl (s : AgentState) : ConvExtends s s :=
  ⟨[], (List.append_nil _).symm⟩

theorem convExtends_trans {s t u : AgentState} (h1 : ConvExtends s t)
    (h2 : ConvExtends t u) : ConvExtends s u := by
  obtain ⟨a, ha⟩ := h1
  obtain ⟨b, hb⟩ := h2
  exact ⟨a ++ b, by rw [hb, ha, List.append_assoc]⟩

theorem convExtends_push (s : AgentState) (m : ChatMessage) :
    ConvExtends s (pushMsg s m) :=
  ⟨[m], rfl⟩

theorem convExtends_of_convEq {s t : AgentState}
    (h : t.conversationHistory = s.conversationHistory) : ConvExtends s t :=
  ⟨[], by rw [h, List.append_nil]⟩

theorem executeToolModel_conv (st : AgentState) (tc : ToolCallSpec) :
    (executeToolModel st tc).1.conversationHistory = st.conversationHistory := by
  unfold executeToolModel
  split
  · rfl
  · split
    · split <;> rfl
    · split
      · rfl
      · split <;> rfl

theorem executeToolModel_flag (st : AgentState) (tc : ToolCallSpec)
    (h : tc.name ≠ "complete_task") :
    (executeToolModel st tc).1.isTaskComplete = st.isTaskComplete := by
  unfold executeToolModel
  split
  · rfl
  · by_cases h1 : tc.name = "update_plan"
    · rw [if_pos h1]
      split <;> rfl
    · rw [if_neg h1, if_neg h]
      split <;> rfl

theorem executeToolModel_gateFields (st : AgentState) (tc : ToolCallSpec) :
    (executeToolModel st tc).1.confirmedActions = st.confirmedActions ∧
    (executeToolModel st tc).1.promptLog = st.promptLog ∧
    (executeToolModel st tc).1.browser = st.browser := by
  unfold executeToolModel
  split
  · exact ⟨rfl, rfl, rfl⟩
  · split
    · split
      · exact ⟨rfl, rfl, rfl⟩
      · exact ⟨rfl, rfl, rfl⟩
    · split
      · exact ⟨rfl, rfl, rfl⟩
      · split
        · exact ⟨rfl, rfl, rfl⟩
        · exact ⟨rfl, rfl, rfl⟩

theorem confirmActionModel_ok {st : AgentState} {tc : ToolCallSpec}
    {st' : AgentState} {b : Bool}
    (h : confirmActionModel st tc = .ok (st', b)) :
    ∃ page, getCurrentPage st.browser = .ok page ∧
      b = tc.userAnswer ∧
      st'.conversationHistory = st.conversationHistory ∧
      st'.currentPlan = st.currentPlan ∧
      st'.currentElements = st.currentElements ∧
      st'.isTaskComplete = st.isTaskComplete ∧
      st'.browser = st.browser ∧
      st'.promptLog = st.promptLog ++ [(gateKey st tc page, tc.userAnswer)] ∧
      st'.confirmedActions =
        (if tc.userAnswer then setAdd st.confirmedActions (gateKey st tc page)
         else st.confirmedActions) := by
  unfold confirmActionModel at h
  cases hp : getCurrentPage st.browser with
  | error e =>
    rw [hp] at h
    cases h
  | ok page =>
    rw [hp] at h
    refine ⟨page, rfl, ?_⟩
    cases hu : tc.userAnswer with
    | false =>
      rw [hu] at h
      simp only [Bool.false_eq_true, if_false] at h
      cases h
      exact ⟨rfl, rfl, rfl, rfl, rfl, rfl, rfl, rfl⟩
    | true =>
      rw [hu] at h
      simp only [if_true] at h
      cases h
      exact ⟨rfl, rfl, rfl, rfl, rfl, rfl, rfl, rfl⟩

theorem processCalls_cons_gate_error (cfg : ResolvedAgentConfig) (st : AgentState)
    (tc : ToolCallSpec) (rest : List ToolCallSpec) (e : String)
    (hrc : cfg.requireConfirmation = true)
    (hsc : shouldConfirmModel st tc = .error e) :
    processCalls cfg st (tc :: rest) = (st, some e) := by
  simp only [processCalls, hrc, hsc, if_true]

theorem processCalls_cons_denied (cfg : ResolvedAgentConfig) (st st1 : AgentState)
    (tc : ToolCallSpec) (rest : List ToolCallSpec)
    (hrc : cfg.requireConfirmation = true)
    (hsc : shouldConfirmModel st tc = .ok true)
    (hca : confirmActionModel st tc = .ok (st1, false)) :
    processCalls cfg st (tc :: rest) =
      processCalls cfg (pushMsg st1 (toolMsg tc.id "Action cancelled by user")) rest := by
  simp only [processCalls, hrc, hsc, hca, if_true, Bool.false_eq_true, if_false]

theorem processCalls_cons_approved (cfg : ResolvedAgentConfig) (st st1 : AgentState)
    (tc : ToolCallSpec) (rest : List ToolCallSpec)
    (hrc : cfg.requireConfirmation = true)
    (hsc : shouldConfirmModel st tc = .ok true)
    (hca : confirmActionModel st tc = .ok (st1, true)) :
    processCalls cfg st (tc :: rest) =
      processCalls cfg
        (pushMsg (executeToolModel st1 tc).1 (toolMsg tc.id (executeToolModel st1 tc).2.1))
        rest := by
  simp only [processCalls, hrc, hsc, hca, if_true]

theorem processCalls_cons_unconfirmed (cfg : ResolvedAgentConfig) (st : AgentState)
    (tc : ToolCallSpec) (rest : List ToolCallSpec)
    (hrc : cfg.requireConfirmation = true)
    (hsc : shouldConfirmModel st tc = .ok false) :
    processCalls cfg st (tc :: rest) =
      processCalls cfg
        (pushMsg (executeToolModel st tc).1 (toolMsg tc.id (executeToolModel st tc).2.1))
        rest := by
  simp only [processCalls, hrc, hsc, if_true]

theorem processCalls_cons_noConfirmation (cfg : ResolvedAgentConfig) (st : AgentState)
    (tc : ToolCallSpec) (rest : List ToolCallSpec)
    (hrc : cfg.requireConfirmation = false) :
    processCalls cfg st (tc :: rest) =
      processCalls cfg
        (pushMsg (executeToolModel st tc).1 (toolMsg tc.id (executeToolModel st tc).2.1))
        rest := by
  simp only [processCalls, hrc, Bool.false_eq_true, if_false]
  simp

theorem convExtends_dispatch (st1 : AgentState) (tc : ToolCallSpec) :
    ConvExtends st1
      (pushMsg (executeToolModel st1 tc).1 (toolMsg tc.id (executeToolModel st1 tc).2.1)) :=
  convExtends_trans (convExtends_of_convEq (executeToolModel_conv st1 tc))
    (convExtends_push _ _)

theorem processCalls_conv (cfg : ResolvedAgentConfig) :
    ∀ (tcs : List ToolCallSpec) (st : AgentState),
      ConvExtends st (processCalls cfg st tcs).1 := by
  intro tcs
  induction tcs with
  | nil =>
    intro st
    exact convExtends_refl st
  | cons tc rest ih =>
    intro st
    cases hrc : cfg.requireConfirmation with
    | false =>
      rw [processCalls_cons_noConfirmation cfg st tc rest hrc]
      exact convExtends_trans (convExtends_dispatch st tc) (ih _)
    | true =>
      cases hsc : shouldConfirmModel st tc with
      | error e =>
        rw [processCalls_cons_gate_error cfg st tc rest e hrc hsc]
        exact convExtends_refl st
      | ok b =>
        cases b with
        | false =>
          rw [processCalls_cons_unconfirmed cfg st tc rest hrc hsc]
          exact convExtends_trans (convExtends_dispatch st tc) (ih _)
        | true =>
          cases hca : confirmActionModel st tc with
          | error e =>
            have heq : processCalls cfg st (tc :: rest) = (st, some e) := by
              simp only [processCalls, hrc, hsc, hca, if_true]
            rw [heq]
            exact convExtends_refl st
          | ok pr =>
            obtain ⟨st1, b2⟩ := pr
            cases b2 with
            | false =>
              rw [processCalls_cons_denied cfg st st1 tc rest hrc hsc hca]
              obtain ⟨page, _, _, hconv, _⟩ := confirmActionModel_ok hca
              exact convExtends_trans (convExtends_of_convEq hconv)
                (convExtends_trans (convExtends_push _ _) (ih _))
            | true =>
              rw [processCalls_cons_approved cfg st st1 tc rest hrc hsc hca]
              obtain ⟨page, _, _, hconv, _⟩ := confirmActionModel_ok hca
              exact convExtends_trans (convExtends_of_convEq hconv)
                (convExtends_trans (convExtends_dispatch st1 tc) (ih _))

theorem processCalls_flag (cfg : ResolvedAgentConfig) :
    ∀ (tcs : List ToolCallSpec) (st : AgentState),
      (∀ tc ∈ tcs, tc.name ≠ "complete_task") →
      (processCalls cfg st tcs).1.isTaskComplete = st.isTaskComplete := by
  intro tcs
  induction tcs with
  | nil =>
    intro st _
    rfl
  | cons tc rest ih =>
    intro st hno
    have hhd : tc.name ≠ "complete_task" := hno tc (List.mem_cons_self tc rest)
    have htl : ∀ x ∈ rest, x.name ≠ "complete_task" :=
      fun x hx => hno x (List.mem_cons_of_mem tc hx)
    cases hrc : cfg.requireConfirmation with
    | false =>
      rw [processCalls_cons_noConfirmation cfg st tc rest hrc, ih _ htl]
      show (executeToolModel st tc).1.isTaskComplete = st.isTaskComplete
      exact executeToolModel_flag st tc hhd
    | true =>
      cases hsc : shouldConfirmModel st tc with
      | error e =>
        rw [processCalls_cons_gate_error cfg st tc rest e hrc hsc]
      | ok b =>
        cases b with
        | false =>
          rw [processCalls_cons_unconfirmed cfg st tc rest hrc hsc, ih _ htl]
          show (executeToolModel st tc).1.isTaskComplete = st.isTaskComplete
          exact executeToolModel_flag st tc hhd
        | true =>
          cases hca : confirmActionModel st tc with
          | error e =>
            have heq : processCalls cfg st (tc :: rest) = (st, some e) := by
              simp only [processCalls, hrc, hsc, hca, if_true]
            rw [heq]
          | ok pr =>
            obtain ⟨st1, b2⟩ := pr
            obtain ⟨page, _, _, _, _, _, hflag, _⟩ := confirmActionModel_ok hca
            cases b2 with
            | false =>
              rw [processCalls_cons_denied cfg st st1 tc rest hrc hsc hca, ih _ htl]
              show st1.isTaskComplete = st.isTaskComplete
              exact hflag
            | true =>
              rw [processCalls_cons_approved cfg st st1 tc rest hrc hsc hca, ih _ htl]
              show (executeToolModel st1 tc).1.isTaskComplete = st.isTaskComplete
              rw [executeToolModel_flag st1 tc hhd]
              exact hflag

/-- The tool calls carried by one iteration's decision. -/
def decisionCalls : IterationInput → List ToolCallSpec
  | .failure _ => []
  | .message _ tcs => tcs

theorem pushMsg_flag (st : AgentState) (m : ChatMessage) :
    (pushMsg st m).isTaskComplete = st.isTaskComplete := rfl

theorem iterateModel_conv (cfg : ResolvedAgentConfig) (st : AgentState)
    (inp : IterationInput) : ConvExtends st (iterateModel cfg st inp) := by
  cases inp with
  | failure e => exact convExtends_push st (correctiveMsg e)
  | message content tcs =>
    have hpush : ConvExtends st (pushMsg st (assistantMsg content tcs)) :=
      convExtends_push _ _
    cases tcs with
    | nil =>
      exact convExtends_trans hpush (convExtends_push _ _)
    | cons tc rest =>
      have hproc :=
        processCalls_conv cfg (tc :: rest) (pushMsg st (assistantMsg content (tc :: rest)))
      simp only [iterateModel]
      cases hpc : processCalls cfg (pushMsg st (assistantMsg content (tc :: rest)))
          (tc :: rest) with
      | mk st2 err =>
        rw [hpc] at hproc
        cases err with
        | none => exact convExtends_trans hpush hproc
        | some e =>
          exact convExtends_trans hpush (convExtends_trans hproc (convExtends_push _ _))

theorem iterateModel_flag (cfg : ResolvedAgentConfig) (st : AgentState)
    (inp : IterationInput)
    (hno : ∀ tc ∈ decisionCalls inp, tc.name ≠ "complete_task") :
    (iterateModel cfg st inp).isTaskComplete = st.isTaskComplete := by
  cases inp with
  | failure e => rfl
  | message content tcs =>
    cases tcs with
    | nil => rfl
    | cons tc rest =>
      have hflag :=
        processCalls_flag cfg (tc :: rest) (pushMsg st (assistantMsg content (tc :: rest))) hno
      simp only [iterateModel]
      cases hpc : processCalls cfg (pushMsg st (assistantMsg content (tc :: rest)))
          (tc :: rest) with
      | mk st2 err =>
        rw [hpc] at hflag
        cases err with
        | none => exact hflag
        | some e => exact hflag

theorem loopAux_count_le (cfg : ResolvedAgentConfig) (inputs : Nat → IterationInput) :
    ∀ (fuel : Nat) (st : AgentState) (n : Nat),
      (loopAux cfg inputs fuel st n).2 ≤ n + fuel := by
  intro fuel
  induction fuel with
  | zero =>
    intro st n
    simp [loopAux]
  | succ f ih =>
    intro st n
    unfold loopAux
    by_cases hc : st.isTaskComplete = true
    · rw [if_pos hc]
      show n ≤ n + (f + 1)
      omega
    · rw [if_neg hc]
      exact le_trans (ih _ (n + 1)) (by omega)

theorem loopAux_count_eq_of_not_complete (cfg : ResolvedAgentConfig)
    (inputs : Nat → IterationInput) :
    ∀ (fuel : Nat) (st : AgentState) (n : Nat),
      (loopAux cfg inputs fuel st n).1.isTaskComplete = false →
      (loopAux cfg inputs fuel st n).2 = n + fuel := by
  intro fuel
  induction fuel with
  | zero =>
    intro st n _
    simp [loopAux]
  | succ f ih =>
    intro st n h
    unfold loopAux at h ⊢
    by_cases hc : st.isTaskComplete = true
    · rw [if_pos hc] at h
      rw [hc] at h
      cases h
    · rw [if_neg hc] at h ⊢
      rw [ih _ (n + 1) h]
      omega

theorem loopAux_flag (cfg : ResolvedAgentConfig) (inputs : Nat → IterationInput)
    (hno : ∀ n, ∀ tc ∈ decisionCalls (inputs n), tc.name ≠ "complete_task") :
    ∀ (fuel : Nat) (st : AgentState) (n : Nat),
      (loopAux cfg inputs fuel st n).1.isTaskComplete = st.isTaskComplete := by
  intro fuel
  induction fuel with
  | zero =>
    intro st n
    rfl
  | succ f ih =>
    intro st n
    unfold loopAux
    by_cases hc : st.isTaskComplete = true
    · rw [if_pos hc]
    · rw [if_neg hc]
      rw [ih _ (n + 1)]
      exact iterateModel_flag cfg st (inputs n) (hno n)

theorem loopAux_conv (cfg : ResolvedAgentConfig) (inputs : Nat → IterationInput) :
    ∀ (fuel : Nat) (st : AgentState) (n : Nat),
      ConvExtends st (loopAux cfg inputs fuel st n).1 := by
  intro fuel
  induction fuel with
  | zero =>
    intro st n
    exact convExtends_refl st
  | succ f ih =>
    intro st n
    unfold loopAux
    by_cases hc : st.isTaskComplete = true
    · rw [if_pos hc]
      exact convExtends_refl st
    · rw [if_neg hc]
      exact convExtends_trans (iterateModel_conv cfg st (inputs n)) (ih _ (n + 1))

theorem taskStartState_conv (cfg : ResolvedAgentConfig) (task : String) (st : AgentState) :
    (taskStartState cfg task st).conversationHistory =
      st.conversationHistory ++ [userMsg task] := by
  by_cases hv : cfg.showPlanVisualization = true <;>
    simp [taskStartState, hv, pushMsg]

theorem executeTaskModel_conv (cfg : ResolvedAgentConfig) (task : String)
    (inputs : Nat → IterationInput) (st : AgentState) :
    ConvExtends st (executeTaskModel cfg task inputs st).1 := by
  unfold executeTaskModel
  refine convExtends_trans ⟨[userMsg task], taskStartState_conv cfg task st⟩ ?_
  exact loopAux_conv cfg inputs cfg.maxIterations _ 0

theorem convExtends_foldTasks (cfg : ResolvedAgentConfig) :
    ∀ (tasks : List (String × (Nat → IterationInput))) (s : AgentState),
      ConvExtends s
        (tasks.foldl (fun s t => (executeTaskModel cfg t.1 t.2 s).1) s) := by
  intro tasks
  induction tasks with
  | nil =>
    intro s
    exact convExtends_refl s
  | cons t ts ih =>
    intro s
    rw [List.foldl_cons]
    exact convExtends_trans (executeTaskModel_conv cfg t.1 t.2 s) (ih _)

/-- C8: over any session (initialize followed by any sequence of tasks,
and likewise over any stretch of loop iterations inside one task) the
conversation behaves as an append-only sequence: the old history is a
prefix of the new one, its length never decreases, and every existing
entry keeps its position and content. -/
theorem conversation_append_only (cfg : ResolvedAgentConfig) (st0 : AgentState)
    (tasks : List (String × (Nat → IterationInput))) :
    (∃ tail, (runSession cfg st0 tasks).conversationHistory =
        st0.conversationHistory ++ tail) ∧
    st0.conversationHistory.length ≤
      (runSession cfg st0 tasks).conversationHistory.length ∧
    (∀ i, i < st0.conversationHistory.length →
      (runSession cfg st0 tasks).conversationHistory[i]? =
        st0.conversationHistory[i]?) ∧
    (∀ (inputs : Nat → IterationInput) (fuel n : Nat) (st : AgentState),
      ∃ tail, (loopAux cfg inputs fuel st n).1.conversationHistory =
        st.conversationHistory ++ tail) := by
  have hsess : ConvExtends st0 (runSession cfg st0 tasks) := by
    unfold runSession
    exact convExtends_trans (convExtends_push st0 (systemMsg SYSTEM_PROMPT))
      (convExtends_foldTasks cfg tasks _)
  obtain ⟨tail, htail⟩ := hsess
  refine ⟨⟨tail, htail⟩, ?_, ?_, ?_⟩
  · rw [htail, List.length_append]
    omega
  · intro i hi
    rw [htail, List.getElem?_append, if_pos hi]
  · intro inputs fuel n st
    exact loopAux_conv cfg inputs fuel st n

/-- C5: the execution loop performs at most `maxIterations` iterations
(`maxIterations` defaults to 50), and whenever `complete_task` is never
dispatched — equivalently, no decision ever carries a `complete_task`
call — the loop stops after exactly `maxIterations` iterations with the
task not complete and reports it as unresolved. -/
theorem loop_iteration_cap (cfg : ResolvedAgentConfig) (task : String)
    (inputs : Nat → IterationInput) (st : AgentState) :
    (executeTaskModel cfg task inputs st).2 ≤ cfg.maxIterations ∧
    ((∀ n, ∀ tc ∈ decisionCalls (inputs n), tc.name ≠ "complete_task") →
      (executeTaskModel cfg task inputs st).2 = cfg.maxIterations ∧
      (executeTaskModel cfg task inputs st).1.isTaskComplete = false ∧
      reportsUnresolved (executeTaskModel cfg task inputs st).1 = true) ∧
    (resolveAgentConfig {}).maxIterations = 50 := by
  refine ⟨?_, ?_, rfl⟩
  · have h := loopAux_count_le cfg inputs cfg.maxIterations (taskStartState cfg task st) 0
    simpa [executeTaskModel] using h
  · intro hno
    have hstart : (taskStartState cfg task st).isTaskComplete = false := rfl
    have hflag : (executeTaskModel cfg task inputs st).1.isTaskComplete = false := by
      show (loopAux cfg inputs cfg.maxIterations (taskStartState cfg task st) 0).1.isTaskComplete
        = false
      rw [loopAux_flag cfg inputs hno cfg.maxIterations (taskStartState cfg task st) 0]
      exact hstart
    have hcount :=
      loopAux_count_eq_of_not_complete cfg inputs cfg.maxIterations
        (taskStartState cfg task st) 0 hflag
    refine ⟨by simpa [executeTaskModel] using hcount, hflag, ?_⟩
    simp [reportsUnresolved, hflag]

def wC5cfg : ResolvedAgentConfig :=
  { resolveAgentConfig {} with maxIterations := 2 }

def wC5input : IterationInput :=
  .message none [{ id := "c1", name := "get_page_content", envOutcome := .ok "Found 0 elements" }]

def wC5state : AgentState :=
  { browser := { contextInit := true,
                 pages := [("page-0", { handle := 0, url := "https://example.com/home" })],
                 currentPageId := some "page-0", nextHandle := 1 } }

/-- Witness for the C5 theorem: a model that only ever asks for page
content exhausts the two configured iterations and the task stays
unresolved. -/
theorem loop_iteration_cap_witness :
    (executeTaskModel wC5cfg "find a product" (fun _ => wC5input) wC5state).2 ≤ 2 ∧
    (executeTaskModel wC5cfg "find a product" (fun _ => wC5input) wC5state).2 = 2 ∧
    (executeTaskModel wC5cfg "find a product" (fun _ => wC5input) wC5state).1.isTaskComplete
      = false := by
  have h := loop_iteration_cap wC5cfg "find a product" (fun _ => wC5input) wC5state
  have hno : ∀ n : Nat, ∀ tc ∈ decisionCalls ((fun _ => wC5input) n),
      tc.name ≠ "complete_task" := by
    intro n tc htc
    simp only [wC5input, decisionCalls, List.mem_singleton] at htc
    rw [htc]
    decide
  exact ⟨h.1, (h.2.1 hno).1, (h.2.1 hno).2.1⟩

/-- C6: a decision with zero tool calls does not abort the loop: the
iteration appends the assistant entry and exactly one corrective
user-role entry, changes nothing else, and the loop proceeds to the next
iteration. -/
theorem no_toolcalls_appends_corrective_and_continues (cfg : ResolvedAgentConfig)
    (st : AgentState) (content : Option String) (inputs : Nat → IterationInput)
    (fuel n : Nat) (hflag : st.isTaskComplete = false)
    (hin : inputs n = IterationInput.message content []) :
    loopAux cfg inputs (fuel + 1) st n =
      loopAux cfg inputs fuel (iterateModel cfg st (inputs n)) (n + 1) ∧
    iterateModel cfg st (inputs n) =
      { st with conversationHistory :=
          st.conversationHistory ++
            [assistantMsg content [], correctiveMsg noToolCallsError] } ∧
    (correctiveMsg noToolCallsError).role = ChatRole.user := by
  refine ⟨?_, ?_, rfl⟩
  · have hstep : loopAux cfg inputs (fuel + 1) st n =
        if st.isTaskComplete then (st, n)
        else loopAux cfg inputs fuel (iterateModel cfg st (inputs n)) (n + 1) := rfl
    rw [hstep, if_neg (by rw [hflag]; exact Bool.false_ne_true)]
  · rw [hin]
    show pushMsg (pushMsg st (assistantMsg content [])) (correctiveMsg noToolCallsError) = _
    simp [pushMsg]

def wC6state : AgentState :=
  { conversationHistory := [systemMsg SYSTEM_PROMPT, userMsg "compare prices"] }

/-- Witness for the C6 theorem at a concrete state and input stream. -/
theorem no_toolcalls_appends_corrective_and_continues_witness :
    loopAux (resolveAgentConfig {}) (fun _ => .message (some "thinking...") []) (3 + 1)
        wC6state 0 =
      loopAux (resolveAgentConfig {}) (fun _ => .message (some "thinking...") []) 3
        (iterateModel (resolveAgentConfig {}) wC6state
          ((fun _ => IterationInput.message (some "thinking...") []) 0)) (0 + 1) ∧
    iterateModel (resolveAgentConfig {}) wC6state
        ((fun _ => IterationInput.message (some "thinking...") []) 0) =
      { wC6state with conversationHistory :=
          wC6state.conversationHistory ++
            [assistantMsg (some "thinking...") [], correctiveMsg noToolCallsError] } ∧
    (correctiveMsg noToolCallsError).role = ChatRole.user :=
  no_toolcalls_appends_corrective_and_continues (resolveAgentConfig {}) wC6state
    (some "thinking...") (fun _ => .message (some "thinking...") []) 3 0 rfl rfl

/-! ## Confirmation-gate lemmas -/

theorem shouldConfirmModel_ok_page {st : AgentState} {tc : ToolCallSpec} {b : Bool}
    (h : shouldConfirmModel st tc = .ok b) :
    ∃ page, getCurrentPage st.browser = .ok page := by
  unfold shouldConfirmModel at h
  cases hp : getCurrentPage st.browser with
  | error e =>
    rw [hp] at h
    cases h
  | ok page => exact ⟨page, rfl⟩

theorem shouldConfirmModel_true_not_contains {st : AgentState} {tc : ToolCallSpec}
    {page : PageModel} (hp : getCurrentPage st.browser = .ok page)
    (h : shouldConfirmModel st tc = .ok true) :
    st.confirmedActions.contains (gateKey st tc page) = false := by
  cases hb : st.confirmedActions.contains (gateKey st tc page) with
  | false => rfl
  | true =>
    exfalso
    unfold shouldConfirmModel at h
    rw [hp] at h
    by_cases h1 : (gateAssessment st tc page).riskLevel = .low
    · simp [h1] at h
    · have hmem : gateKey st tc page ∈ st.confirmedActions := by
        simpa using hb
      simp [h1, hmem] at h

/-- C9: when the user denies a confirmation prompt, the operation is not
dispatched and the gate's only state effects are one appended tool-result
entry `Action cancelled by user` (plus the recorded prompt itself): the
confirmed-action set, plan, element cache, completion flag and browser
are all unchanged. -/
theorem denial_skips_dispatch_and_preserves_state (cfg : ResolvedAgentConfig)
    (st : AgentState) (tc : ToolCallSpec) (rest : List ToolCallSpec)
    (hrc : cfg.requireConfirmation = true)
    (hsc : shouldConfirmModel st tc = .ok true)
    (hans : tc.userAnswer = false) :
    ∃ st1 page,
      getCurrentPage st.browser = .ok page ∧
      processCalls cfg st (tc :: rest) =
        processCalls cfg (pushMsg st1 (toolMsg tc.id "Action cancelled by user")) rest ∧
      st1.conversationHistory = st.conversationHistory ∧
      st1.confirmedActions = st.confirmedActions ∧
      st1.currentPlan = st.currentPlan ∧
      st1.currentElements = st.currentElements ∧
      st1.isTaskComplete = st.isTaskComplete ∧
      st1.browser = st.browser ∧
      st1.promptLog = st.promptLog ++ [(gateKey st tc page, false)] := by
  obtain ⟨page, hp⟩ := shouldConfirmModel_ok_page hsc
  have hca : confirmActionModel st tc =
      .ok ({ st with promptLog := st.promptLog ++ [(gateKey st tc page, false)] }, false) := by
    unfold confirmActionModel
    rw [hp, hans]
    simp
  refine ⟨{ st with promptLog := st.promptLog ++ [(gateKey st tc page, false)] }, page,
    hp, ?_, rfl, rfl, rfl, rfl, rfl, rfl, rfl⟩
  exact processCalls_cons_denied cfg st _ tc rest hrc hsc hca

def wC9state : AgentState :=
  { browser := { contextInit := true,
                 pages := [("page-0", { handle := 0, url := "https://example.com/home" })],
                 currentPageId := some "page-0", nextHandle := 1 },
    currentElements := [{ id := "el-1", text := some "Delete my account" }] }

def wC9call : ToolCallSpec :=
  { id := "c1", name := "click", elementId := some "el-1", userAnswer := false }

/-- Witness for the C9 theorem: denying the prompt for a destructive
"Delete my account" click. -/
theorem denial_skips_dispatch_and_preserves_state_witness :
    ∃ st1 page,
      getCurrentPage wC9state.browser = .ok page ∧
      processCalls (resolveAgentConfig {}) wC9state [wC9call] =
        processCalls (resolveAgentConfig {})
          (pushMsg st1 (toolMsg wC9call.id "Action cancelled by user")) [] ∧
      st1.conversationHistory = wC9state.conversationHistory ∧
      st1.confirmedActions = wC9state.confirmedActions ∧
      st1.currentPlan = wC9state.currentPlan ∧
      st1.currentElements = wC9state.currentElements ∧
      st1.isTaskComplete = wC9state.isTaskComplete ∧
      st1.browser = wC9state.browser ∧
      st1.promptLog = wC9state.promptLog ++ [(gateKey wC9state wC9call page, false)] :=
  denial_skips_dispatch_and_preserves_state (resolveAgentConfig {}) wC9state wC9call []
    rfl (by decide) rfl

/-! ## Confirmation prompt counting (per-task deduplication) -/

/-- Number of prompts recorded for a given action key. -/
def promptCount (log : List (String × Bool)) (k : String) : Nat :=
  (log.filter (fun p => p.1 == k)).length

/-- Number of prompts for a given action key that the user approved. -/
def approvedPromptCount (log : List (String × Bool)) (k : String) : Nat :=
  (log.filter (fun p => p.1 == k && p.2)).length

theorem approvedPromptCount_append (log : List (String × Bool)) (k k' : String)
    (ans : Bool) :
    approvedPromptCount (log ++ [(k', ans)]) k =
      approvedPromptCount log k + (if k' == k && ans then 1 else 0) := by
  simp only [approvedPromptCount, List.filter_append, List.length_append]
  cases hc : (k' == k && ans) <;> simp [List.filter, hc]

theorem setAdd_contains_self (l : List String) (k : String) :
    (setAdd l k).contains k = true := by
  unfold setAdd
  by_cases h : l.contains k = true
  · rw [if_pos h]
    exact h
  · rw [if_neg h]
    simp [List.contains_cons]

theorem setAdd_contains_mono (l : List String) (k' k : String)
    (h : l.contains k = true) : (setAdd l k').contains k = true := by
  unfold setAdd
  by_cases hc : l.contains k' = true
  · rw [if_pos hc]
    exact h
  · rw [if_neg hc]
    rw [List.contains_cons]
    simp only [h, Bool.or_true]

/-- Invariant tying the prompt log to the confirmed-action set: a key has
at most one approved prompt, and once it has one it is in the confirmed
set. -/
def PromptInv (k : String) (st : AgentState) : Prop :=
  approvedPromptCount st.promptLog k ≤ 1 ∧
  (1 ≤ approvedPromptCount st.promptLog k → st.confirmedActions.contains k = true)

theorem promptInv_pushMsg (k : String) (st : AgentState) (m : ChatMessage)
    (h : PromptInv k st) : PromptInv k (pushMsg st m) := h

theorem promptInv_executeTool (k : String) (st : AgentState) (tc : ToolCallSpec)
    (h : PromptInv k st) : PromptInv k (executeToolModel st tc).1 := by
  obtain ⟨hconf, hlog, _⟩ := executeToolModel_gateFields st tc
  constructor
  · rw [PromptInv] at h
    rw [hlog]
    exact h.1
  · intro hge
    rw [hlog] at hge
    rw [hconf]
    exact h.2 hge

theorem promptInv_gate (k : String) (st st1 : AgentState) (tc : ToolCallSpec) (b : Bool)
    (hsc : shouldConfirmModel st tc = .ok true)
    (hca : confirmActionModel st tc = .ok (st1, b))
    (h : PromptInv k st) : PromptInv k st1 := by
  obtain ⟨page, hp, hb, _, _, _, _, _, hlog, hconf⟩ := confirmActionModel_ok hca
  have hnotin := shouldConfirmModel_true_not_contains hp hsc
  cases hans : tc.userAnswer with
  | false =>
    rw [hans] at hlog hconf
    simp only [Bool.false_eq_true, if_false] at hconf
    constructor
    · rw [hlog, approvedPromptCount_append]
      simp only [Bool.and_false, if_false]
      exact h.1
    · intro hge
      rw [hlog, approvedPromptCount_append] at hge
      simp only [Bool.and_false, if_false] at hge
      rw [hconf]
      exact h.2 hge
  | true =>
    rw [hans] at hlog hconf
    simp only [if_true] at hconf
    by_cases hkk : (gateKey st tc page == k) = true
    · have hk : gateKey st tc page = k := eq_of_beq hkk
      have hzero : approvedPromptCount st.promptLog k = 0 := by
        by_contra hnz
        have hge : 1 ≤ approvedPromptCount st.promptLog k := by omega
        have hcontains := h.2 hge
        rw [← hk] at hcontains
        rw [hcontains] at hnotin
        cases hnotin
      constructor
      · rw [hlog, approvedPromptCount_append, hzero]
        split <;> omega
      · intro _
        rw [hconf, hk]
        exact setAdd_contains_self st.confirmedActions k
    · have hkk' : (gateKey st tc page == k) = false := by
        cases hc : (gateKey st tc page == k) with
        | false => rfl
        | true => exact absurd hc hkk
      constructor
      · rw [hlog, approvedPromptCount_append, hkk']
        simp only [Bool.false_and, if_false]
        exact h.1
      · intro hge
        rw [hlog, approvedPromptCount_append, hkk'] at hge
        simp only [Bool.false_and, if_false] at hge
        rw [hconf]
        exact setAdd_contains_mono st.confirmedActions (gateKey st tc page) k (h.2 hge)

theorem promptInv_processCalls (cfg : ResolvedAgentConfig) (k : String) :
    ∀ (tcs : List ToolCallSpec) (st : AgentState),
      PromptInv k st → PromptInv k (processCalls cfg st tcs).1 := by
  intro tcs
  induction tcs with
  | nil =>
    intro st h
    exact h
  | cons tc rest ih =>
    intro st h
    cases hrc : cfg.requireConfirmation with
    | false =>
      rw [processCalls_cons_noConfirmation cfg st tc rest hrc]
      exact ih _ (promptInv_pushMsg k _ _ (promptInv_executeTool k st tc h))
    | true =>
      cases hsc : shouldConfirmModel st tc with
      | error e =>
        rw [processCalls_cons_gate_error cfg st tc rest e hrc hsc]
        exact h
      | ok b =>
        cases b with
        | false =>
          rw [processCalls_cons_unconfirmed cfg st tc rest hrc hsc]
          exact ih _ (promptInv_pushMsg k _ _ (promptInv_executeTool k st tc h))
        | true =>
          cases hca : confirmActionModel st tc with
          | error e =>
            have heq : processCalls cfg st (tc :: rest) = (st, some e) := by
              simp only [processCalls, hrc, hsc, hca, if_true]
            rw [heq]
            exact h
          | ok pr =>
            obtain ⟨st1, b2⟩ := pr
            have hinv1 := promptInv_gate k st st1 tc b2 hsc hca h
            cases b2 with
            | false =>
              rw [processCalls_cons_denied cfg st st1 tc rest hrc hsc hca]
              exact ih _ (promptInv_pushMsg k _ _ hinv1)
            | true =>
              rw [processCalls_cons_approved cfg st st1 tc rest hrc hsc hca]
              exact ih _ (promptInv_pushMsg k _ _ (promptInv_executeTool k st1 tc hinv1))

theorem promptInv_iterate (cfg : ResolvedAgentConfig) (k : String) (st : AgentState)
    (inp : IterationInput) (h : PromptInv k st) :
    PromptInv k (iterateModel cfg st inp) := by
  cases inp with
  | failure e => exact h
  | message content tcs =>
    cases tcs with
    | nil => exact h
    | cons tc rest =>
      have hproc :=
        promptInv_processCalls cfg k (tc :: rest)
          (pushMsg st (assistantMsg content (tc :: rest)))
          (promptInv_pushMsg k st _ h)
      simp only [iterateModel]
      cases hpc : processCalls cfg (pushMsg st (assistantMsg content (tc :: rest)))
          (tc :: rest) with
      | mk st2 err =>
        rw [hpc] at hproc
        cases err with
        | none => exact hproc
        | some e => exact hproc

theorem promptInv_loopAux (cfg : ResolvedAgentConfig) (inputs : Nat → IterationInput)
    (k : String) :
    ∀ (fuel : Nat) (st : AgentState) (n : Nat),
      PromptInv k st → PromptInv k (loopAux cfg inputs fuel st n).1 := by
  intro fuel
  induction fuel with
  | zero =>
    intro st n h
    exact h
  | succ f ih =>
    intro st n h
    unfold loopAux
    by_cases hc : st.isTaskComplete = true
    · rw [if_pos hc]
      exact h
    · rw [if_neg hc]
      exact ih _ (n + 1) (promptInv_iterate cfg k st (inputs n) h)

/-- C2 (amended): within one task, each (operation, element text, risk
category) key receives at most one confirmation prompt that the user
approves; after an approval the key never prompts again.  (A denied
prompt is not recorded, so denials can prompt repeatedly — see the
counterexample.) -/
theorem approved_confirmation_at_most_once_per_task (cfg : ResolvedAgentConfig)
    (task : String) (inputs : Nat → IterationInput) (st : AgentState) (k : String) :
    approvedPromptCount (executeTaskModel cfg task inputs st).1.promptLog k ≤ 1 := by
  have hstart : PromptInv k (taskStartState cfg task st) := by
    constructor
    · show approvedPromptCount [] k ≤ 1
      simp [approvedPromptCount]
    · intro hge
      exfalso
      have : approvedPromptCount [] k = 0 := rfl
      show False
      rw [show (taskStartState cfg task st).promptLog = [] from rfl] at hge
      omega
  exact (promptInv_loopAux cfg inputs k cfg.maxIterations (taskStartState cfg task st) 0
    hstart).1

def wC2state : AgentState :=
  { browser := { contextInit := true,
                 pages := [("page-0", { handle := 0, url := "https://example.com/home" })],
                 currentPageId := some "page-0", nextHandle := 1 },
    currentElements := [{ id := "el-1", text := some "Delete my account" }] }

def wC2call : ToolCallSpec :=
  { id := "c1", name := "click", elementId := some "el-1", userAnswer := false }

/-- C2 counterexample: the same (operation, element text, category)
triple — key `click:Delete my account:data_loss` — prompts twice in one
task when the first prompt is denied, so "at most one prompt per triple
per task" is false as stated. -/
theorem same_triple_prompts_twice_after_denial :
    promptCount
        (processCalls (resolveAgentConfig {}) wC2state [wC2call, wC2call]).1.promptLog
        "click:Delete my account:data_loss" = 2 ∧
    ¬(2 ≤ 1) := by
  constructor
  · decide
  · decide

/-! ## Environment-state failure behaviour -/

def wC3cfg : ResolvedAgentConfig :=
  { resolveAgentConfig {} with maxIterations := 2 }

def wC3call : ToolCallSpec :=
  { id := "c1", name := "click", elementId := some "el-1" }

def wC3state : AgentState :=
  { browser := { contextInit := true } }

def wC3input : IterationInput := .message none [wC3call]

/-- C3 counterexample: with no active page, the loop does not abort.  The
'No active page' error raised inside the confirmation gate is caught at
the iteration boundary; with a two-iteration budget the loop still runs
both iterations (it does not stop after the first), each appending a
corrective entry, and no failure is propagated upward. -/
theorem no_active_page_loop_continues :
    (executeTaskModel wC3cfg "do things" (fun _ => wC3input) wC3state).2 = 2 ∧
    ¬((executeTaskModel wC3cfg "do things" (fun _ => wC3input) wC3state).2 = 1) ∧
    (executeTaskModel wC3cfg "do things" (fun _ => wC3input) wC3state).1.conversationHistory =
      [userMsg "do things",
       assistantMsg none [wC3call], correctiveMsg "No active page",
       assistantMsg none [wC3call], correctiveMsg "No active page"] := by
  refine ⟨by decide, by decide, by decide⟩

/-- C3 (amended): a 'No active page' environment failure during an
iteration is caught at the iteration boundary like any other error: the
iteration appends the assistant entry and one corrective user entry, and
the loop proceeds to the next iteration instead of aborting the task. -/
theorem no_active_page_caught_loop_proceeds (cfg : ResolvedAgentConfig)
    (st : AgentState) (content : Option String) (tc : ToolCallSpec)
    (rest : List ToolCallSpec) (inputs : Nat → IterationInput) (fuel n : Nat)
    (hrc : cfg.requireConfirmation = true)
    (hnp : getCurrentPage st.browser = .error "No active page")
    (hflag : st.isTaskComplete = false)
    (hin : inputs n = .message content (tc :: rest)) :
    loopAux cfg inputs (fuel + 1) st n =
      loopAux cfg inputs fuel (iterateModel cfg st (inputs n)) (n + 1) ∧
    iterateModel cfg st (inputs n) =
      { st with conversationHistory := st.conversationHistory ++
          [assistantMsg content (tc :: rest), correctiveMsg "No active page"] } := by
  refine ⟨?_, ?_⟩
  · have hstep : loopAux cfg inputs (fuel + 1) st n =
        if st.isTaskComplete then (st, n)
        else loopAux cfg inputs fuel (iterateModel cfg st (inputs n)) (n + 1) := rfl
    rw [hstep, if_neg (by rw [hflag]; exact Bool.false_ne_true)]
  · rw [hin]
    have hsc : shouldConfirmModel (pushMsg st (assistantMsg content (tc :: rest))) tc =
        .error "No active page" := by
      unfold shouldConfirmModel
      have hb : getCurrentPage (pushMsg st (assistantMsg content (tc :: rest))).browser =
          .error "No active page" := hnp
      rw [hb]
    have hpc := processCalls_cons_gate_error cfg
      (pushMsg st (assistantMsg content (tc :: rest))) tc rest "No active page" hrc hsc
    simp only [iterateModel]
    rw [hpc]
    show pushMsg (pushMsg st (assistantMsg content (tc :: rest)))
      (correctiveMsg "No active page") = _
    simp [pushMsg]

/-- Witness for the amended C3 theorem at a concrete no-page state. -/
theorem no_active_page_caught_loop_proceeds_witness :
    loopAux wC3cfg (fun _ => wC3input) (1 + 1) wC3state 0 =
      loopAux wC3cfg (fun _ => wC3input) 1
        (iterateModel wC3cfg wC3state ((fun _ => wC3input) 0)) (0 + 1) ∧
    iterateModel wC3cfg wC3state ((fun _ => wC3input) 0) =
      { wC3state with conversationHistory := wC3state.conversationHistory ++
          [assistantMsg none [wC3call], correctiveMsg "No active page"] } :=
  no_active_page_caught_loop_proceeds wC3cfg wC3state none wC3call []
    (fun _ => wC3input) 1 0 rfl rfl rfl rfl

/-! ## Plan-tracker properties -/

theorem buildSteps_length : ∀ (l : List StepArg) (idx : Nat),
    (buildSteps idx l).length = l.length := by
  intro l
  induction l with
  | nil =>
    intro idx
    rfl
  | cons s rest ih =>
    intro idx
    simp [buildSteps, ih (idx + 1)]

theorem buildSteps_getElem? : ∀ (l : List StepArg) (idx i : Nat),
    (buildSteps idx l)[i]? =
      (l[i]?).map (fun s =>
        { id := "step-" ++ toString (idx + i + 1),
          description := s.description,
          status := s.status.getD .pending }) := by
  intro l
  induction l with
  | nil =>
    intro idx i
    simp [buildSteps]
  | cons s rest ih =>
    intro idx i
    cases i with
    | zero =>
      simp [buildSteps]
    | succ j =>
      have harith : idx + 1 + j + 1 = idx + (j + 1) + 1 := by omega
      simp only [buildSteps, List.getElem?_cons_succ]
      rw [ih (idx + 1) j]
      simp [harith]

def wC4args : UpdatePlanArgs :=
  { steps := [{ description := "only step" }], currentStepIndex := 5 }

/-- C4 counterexample: an `update_plan` request with one step and
`current_step_index = 5` stores index 5, which is not in `[0, 1)` — the
tracker performs no clamping. -/
theorem update_plan_index_not_clamped :
    (applyUpdatePlan none wC4args).1.steps.length = 1 ∧
    (applyUpdatePlan none wC4args).1.currentStepIndex = 5 ∧
    ¬((applyUpdatePlan none wC4args).1.currentStepIndex < (1 : Int)) :=
  ⟨rfl, rfl, by decide⟩

/-- C4 (amended): an `update_plan` request with N steps makes the tracker
expose exactly N steps whose descriptions and statuses match the request
(status defaulting to pending when omitted), but the stored current step
index is the raw requested index (JS `current_step_index || 0`) and is
not clamped into `[0, N)`. -/
theorem update_plan_steps_match_index_unclamped (p : Option TaskPlan)
    (args : UpdatePlanArgs) :
    (applyUpdatePlan p args).1.steps.length = args.steps.length ∧
    (∀ i, i < args.steps.length →
      ∃ a, args.steps[i]? = some a ∧
        (applyUpdatePlan p args).1.steps[i]? =
          some { id := "step-" ++ toString (i + 1),
                 description := a.description,
                 status := a.status.getD .pending }) ∧
    (applyUpdatePlan p args).1.currentStepIndex = jsNumOr0 args.currentStepIndex := by
  refine ⟨?_, ?_, rfl⟩
  · show (buildSteps 0 args.steps).length = args.steps.length
    exact buildSteps_length args.steps 0
  · intro i hi
    cases ha : args.steps[i]? with
    | none =>
      rw [List.getElem?_eq_getElem hi] at ha
      cases ha
    | some a =>
      refine ⟨a, rfl, ?_⟩
      show (buildSteps 0 args.steps)[i]? = _
      rw [buildSteps_getElem? args.steps 0 i, ha]
      simp

def wC4args2 : UpdatePlanArgs :=
  { steps := [{ description := "navigate", status := some .completed },
              { description := "buy" }],
    currentStepIndex := 7 }

/-- Witness for the amended C4 theorem on a two-step request with an
out-of-range index. -/
theorem update_plan_steps_match_index_unclamped_witness :
    (applyUpdatePlan none wC4args2).1.steps.length = wC4args2.steps.length ∧
    (∃ a, wC4args2.steps[0]? = some a ∧
      (applyUpdatePlan none wC4args2).1.steps[0]? =
        some { id := "step-" ++ toString (0 + 1),
               description := a.description,
               status := a.status.getD .pending }) ∧
    (applyUpdatePlan none wC4args2).1.currentStepIndex = jsNumOr0 wC4args2.currentStepIndex := by
  have h := update_plan_steps_match_index_unclamped none wC4args2
  exact ⟨h.1, h.2.1 0 (by decide), h.2.2⟩

/-! ## Tab-registry identifier collision -/

def wC10b0 : BrowserState :=
  { contextInit := true,
    pages := [("page-0", { handle := 0, url := "about:blank" })],
    currentPageId := some "page-0", nextHandle := 1 }

def wC10b1 : BrowserState :=
  { contextInit := true,
    pages := [("page-0", { handle := 0, url := "about:blank" }),
              ("page-1", { handle := 1, url := "about:blank" })],
    currentPageId := some "page-0", nextHandle := 2 }

def wC10b2 : BrowserState :=
  { contextInit := true,
    pages := [("page-1", { handle := 1, url := "about:blank" })],
    currentPageId := some "page-1", nextHandle := 2 }

def wC10b3 : BrowserState :=
  { contextInit := true,
    pages := [("page-1", { handle := 2, url := "about:blank" })],
    currentPageId := some "page-1", nextHandle := 3 }

/-- C10: `createNewTab` always hands out the id `page-` followed by the
current registry size, and the id is not unique over a session: after
launch (tab `page-0`), create `page-1`, close `page-0`, and create again —
the new tab is also named `page-1`, overwriting the live `page-1` registry
entry (the registry stays at one entry), and the overwritten tab's page
(handle 1) is no longer reachable through any registry key, hence not via
`switch_tab`/`close_tab`. -/
theorem createNewTab_id_reuse_overwrites_registry :
    (∀ (b : BrowserState) (url : Option String), b.contextInit = true →
      ∃ b2, createNewTab b url = .ok (b2, "page-" ++ toString b.pages.length)) ∧
    createNewTab wC10b0 none = .ok (wC10b1, "page-1") ∧
    closeTab wC10b1 "page-0" = .ok wC10b2 ∧
    mapGet wC10b2.pages "page-1" = some { handle := 1, url := "about:blank" } ∧
    createNewTab wC10b2 none = .ok (wC10b3, "page-1") ∧
    wC10b3.pages.length = wC10b2.pages.length ∧
    (∀ pid, mapGet wC10b3.pages pid ≠ some { handle := 1, url := "about:blank" }) := by
  refine ⟨?_, by decide, by decide, by decide, by decide, by decide, ?_⟩
  · intro b url h
    refine ⟨{ b with
        pages := mapSet b.pages ("page-" ++ toString b.pages.length)
          { handle := b.nextHandle, url := url.getD "about:blank" },
        nextHandle := b.nextHandle + 1 }, ?_⟩
    unfold createNewTab
    rw [h]
    rfl
  · intro pid
    unfold mapGet wC10b3
    by_cases hb : ("page-1" == pid) = true
    · simp [List.find?, hb]
    · have hb' : ("page-1" == pid) = false := by
        cases hc : ("page-1" == pid) with
        | false => rfl
        | true => exact absurd hc hb
      simp [List.find?, hb']

/-- Witness for the universal part of the C10 theorem: from the
post-launch state, the first created tab is `page-1`. -/
theorem createNewTab_id_reuse_overwrites_registry_witness :
    ∃ b2, createNewTab wC10b0 none = .ok (b2, "page-" ++ toString wC10b0.pages.length) :=
  createNewTab_id_reuse_overwrites_registry.1 wC10b0 none rfl
